import Mathlib

/-!
Verification of the Mantle US IRS Mortality package.

The numeric pipeline of `IRS_Mortality.py` is embedded over exact rationals:
every mortality rate, improvement factor, blending weight and projection
duration is a `ℚ`, and the Excel-style rounding of `_excel_round`
(Python `decimal` with `ROUND_HALF_UP`) is embedded as an exact
round-half-away-from-zero on `ℚ`.  Tables that the loaders supply to the
engine (base table, improvement surfaces, projection durations, blending
weights, published tables) are parameters of the embedding, gathered in
`IRS_Mortality.Params`.  The extrapolation of `Tables/ImprovementTable.py`
works on insertion-ordered Python dicts; those are embedded as ordered
association lists together with the dict-update operation.
-/

/-- Embedding of `IRS_Mortality._excel_round`: round `number` to `digits`
decimal places with `decimal.ROUND_HALF_UP`, i.e. to the nearest multiple
of `10⁻ᵈⁱᵍⁱᵗˢ` with ties away from zero, computed exactly on `ℚ`. -/
def excelRound (number : ℚ) (digits : ℕ) : ℚ :=
  if 0 ≤ number then ((⌊number * 10 ^ digits + 1 / 2⌋ : ℤ) : ℚ) / 10 ^ digits
  else -(((⌊-number * 10 ^ digits + 1 / 2⌋ : ℤ) : ℚ) / 10 ^ digits)

/-- Python `int(q)` on a real number: truncation toward zero. -/
def pytrunc (q : ℚ) : ℤ := if 0 ≤ q then ⌊q⌋ else -⌊-q⌋

/-- Python `q % 1` on a real number: `q - ⌊q⌋` (the result has the sign of
the modulus, which is positive). -/
def pymod1 (q : ℚ) : ℚ := q - ⌊q⌋

namespace IRS_Mortality

/-- Maximum year for which IRS mortality rates are defined (class attribute
`max_year`). -/
def max_year : ℤ := 2099

/-- Minimum year for which IRS mortality rates are defined (class attribute
`min_year`). -/
def min_year : ℤ := 2009

/-- Number of decimal places to round to (class attribute `rounding`). -/
def rounding : ℕ := 5

/-- Types of IRS 430 rates (class attribute `types_430`). -/
def types_430 : List String := ["Male EE", "Male HA", "Female EE", "Female HA"]

/-- Ages for which IRS rates are defined: `list(range(15, 121))`. -/
def ages : List ℤ := (List.range 106).map (fun i : ℕ => (15 : ℤ) + (i : ℤ))

/-- The years with published tables: `list(range(2009, 2025))`. -/
def published_years : List ℤ := (List.range 16).map (fun i : ℕ => (2009 : ℤ) + (i : ℤ))

/-- The static tables the loaders supply to the engine, already parsed:
base table with its base year, per-sex improvement surfaces, projection
durations, blending weights, and the three published table families.
Lookups the Python code performs by dict indexing are embedded as total
functions (the code raises `KeyError` on a missing entry; every claim
is about defined entries). -/
structure Params where
  base_table : String → ℤ → ℚ
  base_year : ℤ
  improvement_table : String → ℤ → ℤ → ℚ
  projection_years : String → ℤ → ℚ
  blending_table : String → ℤ → ℚ
  published_430_table : ℤ → String → ℤ → ℚ
  published_static_table : ℤ → String → ℤ → ℚ
  published_417e_table : ℤ → ℤ → ℚ

/-- `type.split(" ")[0]`: the sex component of a 430 rate type. -/
def sexOf (type : String) : String := (type.splitOn " ").headD type

/-- Published status of a calculation year:
`self.calc_year in IRS_Mortality.published_years`. -/
abbrev published (calc_year : ℤ) : Prop := calc_year ∈ published_years

/-- One entry of `_calculate_430_table`: the body of the inner loop of the
private method, for a given 430 type and age. -/
def calculate_430_rate (p : Params) (calc_year : ℤ) (type : String) (age : ℤ) : ℚ :=
  let base_rate := p.base_table type age
  let improvement_table := p.improvement_table (sexOf type)
  let projection_years := p.projection_years type age
  let projection_years_trunc := pytrunc projection_years
  let improvements_lower :=
    ∏ i in Finset.range (calc_year - p.base_year + projection_years_trunc).toNat,
      (1 - improvement_table (p.base_year + 1 + (i : ℤ)) age)
  let lower_rate := excelRound (base_rate * improvements_lower) 6
  let improvements_higher :=
    ∏ i in Finset.range (calc_year - p.base_year + projection_years_trunc + 1).toNat,
      (1 - improvement_table (p.base_year + 1 + (i : ℤ)) age)
  let higher_rate := excelRound (base_rate * improvements_higher) 6
  let remainder := pymod1 projection_years
  excelRound ((1 - remainder) * lower_rate + remainder * higher_rate) 6

/-- The `IRS_430_table` property: published lookup for published years,
otherwise the calculated table. -/
def IRS_430_table (p : Params) (calc_year : ℤ) : String → ℤ → ℚ :=
  if published calc_year then p.published_430_table calc_year
  else calculate_430_rate p calc_year

/-- One entry of `_calculate_430_static_table`: blend of the just-computed
430 EE and HA rates with the blending weight, rounded to 6 then to
`rounding` decimal places. -/
def calculate_430_static_rate (p : Params) (calc_year : ℤ) (sex : String) (age : ℤ) : ℚ :=
  let table_430 := calculate_430_rate p calc_year
  let blending := p.blending_table sex age
  let EE_type := sex ++ " EE"
  let HA_type := sex ++ " HA"
  let static_rate := table_430 HA_type age * blending + table_430 EE_type age * (1 - blending)
  excelRound (excelRound static_rate 6) rounding

/-- The `IRS_430_static_table` property. -/
def IRS_430_static_table (p : Params) (calc_year : ℤ) : String → ℤ → ℚ :=
  if published calc_year then p.published_static_table calc_year
  else calculate_430_static_rate p calc_year

/-- One entry of `_calculate_417e_table`: average of the just-computed male
and female static rates, rounded to `rounding` decimal places. -/
def calculate_417e_rate (p : Params) (calc_year : ℤ) (age : ℤ) : ℚ :=
  let table_static_430 := calculate_430_static_rate p calc_year
  excelRound ((table_static_430 "Male" age + table_static_430 "Female" age) / 2) rounding

/-- The `IRS_417e_table` property. -/
def IRS_417e_table (p : Params) (calc_year : ℤ) : ℤ → ℚ :=
  if published calc_year then p.published_417e_table calc_year
  else calculate_417e_rate p calc_year

/-- A value of the heterogeneous dict returned by `full_table`: either a
table keyed by 430 type or sex, or a table keyed by age. -/
inductive TableVal where
  | byCategory : (String → ℤ → ℚ) → TableVal
  | byAge : (ℤ → ℚ) → TableVal

/-- The `full_table` property:
`{"430 Table": self.IRS_430_table, "430 Static Table":
self.IRS_430_static_table, "417e Table": self.IRS_417e_table}`,
embedded as an ordered association list. -/
def full_table (p : Params) (calc_year : ℤ) : List (String × TableVal) :=
  [("430 Table", TableVal.byCategory (IRS_430_table p calc_year)),
   ("430 Static Table", TableVal.byCategory (IRS_430_static_table p calc_year)),
   ("417e Table", TableVal.byAge (IRS_417e_table p calc_year))]

/-- The `__init__` validation: raising `ValueError` is embedded as
returning `Except.error`; on success the engine (identified by its
calculation year) is constructed. -/
def init (calc_year : ℤ) : Except String ℤ :=
  if calc_year > max_year ∨ calc_year < min_year then
    Except.error "IRS Mortality rates are not defined. Calc year must be between 2009 and 2099."
  else Except.ok calc_year

/-- Modelled from the spec: the RateProjector contract of section 4.2,
written with the spec's own indexing (`n_lower = floor(duration)`,
`span_lower = (calc_year - base_year) + n_lower`, product over
`i = 1..span_lower` of `1 - improvement[base_year + i][age]`, linear
interpolation by the fractional part, all three roundings half-up to six
decimals), for the refinement comparison with `calculate_430_rate`. -/
def spec_430_rate (p : Params) (calc_year : ℤ) (type : String) (age : ℤ) : ℚ :=
  let d := p.projection_years type age
  let n : ℤ := ⌊d⌋
  let span_lower : ℤ := (calc_year - p.base_year) + n
  let lower_rate := excelRound (p.base_table type age *
    ∏ i in Finset.Icc (1 : ℤ) span_lower,
      (1 - p.improvement_table (sexOf type) (p.base_year + i) age)) 6
  let higher_rate := excelRound (p.base_table type age *
    ∏ i in Finset.Icc (1 : ℤ) (span_lower + 1),
      (1 - p.improvement_table (sexOf type) (p.base_year + i) age)) 6
  let remainder := d - n
  excelRound ((1 - remainder) * lower_rate + remainder * higher_rate) 6

/-- A concrete choice of loader-supplied tables used by the witnesses:
constant tables with realistic magnitudes. -/
def trivialParams : Params where
  base_table := fun _ _ => 1 / 10
  base_year := 2012
  improvement_table := fun _ _ _ => 1 / 2
  projection_years := fun _ _ => 3 / 2
  blending_table := fun _ _ => 1 / 2
  published_430_table := fun _ _ _ => 0
  published_static_table := fun _ _ _ => 0
  published_417e_table := fun _ _ => 0

/-- A concrete choice of loader-supplied tables on which the final
5-decimal rounding pushes the blended static rate above both blended
430 rates: base rate `0.000115`, no improvement, integer duration. -/
def blendCexParams : Params where
  base_table := fun _ _ => 115 / 1000000
  base_year := 2012
  improvement_table := fun _ _ _ => 0
  projection_years := fun _ _ => 0
  blending_table := fun _ _ => 1 / 2
  published_430_table := fun _ _ _ => 0
  published_static_table := fun _ _ _ => 0
  published_417e_table := fun _ _ => 0

end IRS_Mortality

namespace ImprovementTable

/-- An age-to-rate table: a Python dict embedded as an insertion-ordered
association list. -/
abbrev AgeTable := List (ℤ × ℚ)

/-- A year-to-age-table surface: a Python dict of dicts embedded as an
insertion-ordered association list. -/
abbrev Surface := List (ℤ × AgeTable)

/-- The keys of a dict, in insertion order. -/
def keysOf {α : Type} (t : List (ℤ × α)) : List ℤ := t.map Prod.fst

/-- Python dict assignment `d[k] = v`: replace the value in place when the
key is present, append the binding otherwise. -/
def setKey {α : Type} (t : List (ℤ × α)) (k : ℤ) (v : α) : List (ℤ × α) :=
  if k ∈ keysOf t then t.map (fun p => if p.1 = k then (p.1, v) else p) else t ++ [(k, v)]

/-- Python `d.update(news)`: assign every binding of `news` in order. -/
def dictUpdate {α : Type} (t news : List (ℤ × α)) : List (ℤ × α) :=
  news.foldl (fun acc kv => setKey acc kv.1 kv.2) t

/-- Maximum year to extrapolate improvement tables to (class attribute
`max_year` of `ImprovementTable`). -/
def maxYear : ℤ := 2178

/-- The dict comprehension
`{age: table[year][first_age] for age in range(15, first_age)}`. -/
def lowAges (first_age : ℤ) (tbl : AgeTable) : AgeTable :=
  (List.range (first_age - 15).toNat).map
    (fun i : ℕ => ((15 : ℤ) + (i : ℤ), (tbl.lookup first_age).getD 0))

/-- Age extension of one year's table:
`new_dict = {age: table[year][first_age] for age in range(15, first_age)}`
followed by `new_dict.update(table[year])`. -/
def extendAges (first_age : ℤ) (tbl : AgeTable) : AgeTable :=
  dictUpdate (lowAges first_age tbl) tbl

/-- Body of `ImprovementTable.extrapolate` once `last_year` and
`first_age` are known: the age-extension loop followed by the
year-extension `table.update(extra_improvements)`. -/
def extrapAux (table : Surface) (last_year first_age : ℤ) : Surface :=
  let t1 := if 15 < first_age
    then table.map (fun p => (p.1, extendAges first_age p.2))
    else table
  if last_year < maxYear then
    dictUpdate t1 ((List.range (maxYear - last_year).toNat).map
      (fun i : ℕ => (last_year + 1 + (i : ℤ), (t1.lookup last_year).getD [])))
  else t1

/-- Embedding of `ImprovementTable.extrapolate`:
`last_year = list(table.keys())[-1]`,
`first_age = list(table[last_year].keys())[0]`, then age and year
extension.  The Python code assumes at least one year and one age and
would raise on an empty dict; the embedding returns the table unchanged
in those unreachable branches. -/
def extrapolate (table : Surface) : Surface :=
  match table.getLast? with
  | none => table
  | some (last_year, _) =>
    match ((table.lookup last_year).getD []).head? with
    | none => table
    | some (first_age, _) => extrapAux table last_year first_age

/-- Concrete surface falsifying the year-extension equality of claim C5:
last year 2177, first defined age 20. -/
def cexSurface : Surface := [(2177, [(20, 1 / 2)])]

/-- Concrete surface for the witness of the amended claim C5. -/
def surfaceC5 : Surface := [(2176, [(19, 1 / 4)])]

/-- Concrete surface for the witness of claim C6. -/
def surfaceC6 : Surface := [(2177, [(20, 1 / 2)])]

/-- Concrete surface for the witness of claim C10. -/
def surfaceC10 : Surface := [(2177, [(18, 3 / 10), (20, 1 / 2)])]

end ImprovementTable

/-! ### Properties of the rounding primitive -/

theorem excelRound_nonneg (x : ℚ) (d : ℕ) (hx : 0 ≤ x) : 0 ≤ excelRound x d := by
  rw [excelRound, if_pos hx]
  have hp : (0 : ℚ) < 10 ^ d := by positivity
  have h1 : (0 : ℤ) ≤ ⌊x * 10 ^ d + 1 / 2⌋ := by
    apply Int.le_floor.mpr
    have := mul_nonneg hx hp.le
    push_cast
    linarith
  have h2 : (0 : ℚ) ≤ ((⌊x * 10 ^ d + 1 / 2⌋ : ℤ) : ℚ) := by exact_mod_cast h1
  exact div_nonneg h2 hp.le

theorem excelRound_le_excelRound {x y : ℚ} (d : ℕ) (hx : 0 ≤ x) (hxy : x ≤ y) :
    excelRound x d ≤ excelRound y d := by
  rw [excelRound, if_pos hx, excelRound, if_pos (hx.trans hxy)]
  have hp : (0 : ℚ) < 10 ^ d := by positivity
  have h1 : ⌊x * 10 ^ d + 1 / 2⌋ ≤ ⌊y * 10 ^ d + 1 / 2⌋ := by
    apply Int.floor_mono
    have := mul_le_mul_of_nonneg_right hxy hp.le
    linarith
  have h2 : ((⌊x * 10 ^ d + 1 / 2⌋ : ℤ) : ℚ) ≤ ((⌊y * 10 ^ d + 1 / 2⌋ : ℤ) : ℚ) := by
    exact_mod_cast h1
  gcongr

theorem excelRound_int (m : ℤ) (d : ℕ) (hm : 0 ≤ m) :
    excelRound ((m : ℚ) / 10 ^ d) d = (m : ℚ) / 10 ^ d := by
  have hp : (0 : ℚ) < 10 ^ d := by positivity
  have hx : (0 : ℚ) ≤ (m : ℚ) / 10 ^ d := div_nonneg (by exact_mod_cast hm) hp.le
  rw [excelRound, if_pos hx, div_mul_cancel₀ _ hp.ne']
  have h12 : ⌊(1 / 2 : ℚ)⌋ = 0 := by
    rw [Int.floor_eq_zero_iff]
    constructor <;> norm_num
  have h2 : ⌊(m : ℚ) + 1 / 2⌋ = m := by
    rw [add_comm, Int.floor_add_int, h12, zero_add]
  rw [h2]

theorem excelRound_eq_int_div (x : ℚ) (d : ℕ) :
    ∃ m : ℤ, excelRound x d = (m : ℚ) / 10 ^ d ∧ (0 ≤ x → 0 ≤ m) := by
  rw [excelRound]
  split
  next h =>
    refine ⟨⌊x * 10 ^ d + 1 / 2⌋, rfl, fun _ => Int.le_floor.mpr ?_⟩
    have := mul_nonneg h (show (0 : ℚ) ≤ 10 ^ d by positivity)
    push_cast
    linarith
  next h =>
    refine ⟨-⌊-x * 10 ^ d + 1 / 2⌋, ?_, fun hx => absurd hx h⟩
    push_cast
    rw [neg_div]

theorem excelRound_fixed (x : ℚ) (d : ℕ) (hx : 0 ≤ x) :
    excelRound (excelRound x d) d = excelRound x d := by
  obtain ⟨m, hm, hm0⟩ := excelRound_eq_int_div x d
  rw [hm]
  exact excelRound_int m d (hm0 hx)

/-! ### Product helpers for the projection pipeline -/

theorem prod_one_sub_nonneg (g : ℕ → ℚ) (n : ℕ) (h : ∀ i, g i ≤ 1) :
    0 ≤ ∏ i in Finset.range n, (1 - g i) :=
  Finset.prod_nonneg (fun i _ => by linarith [h i])

theorem prod_one_sub_anti (g : ℕ → ℚ) (h : ∀ i, 0 ≤ g i ∧ g i ≤ 1) {m n : ℕ} (hmn : m ≤ n) :
    ∏ i in Finset.range n, (1 - g i) ≤ ∏ i in Finset.range m, (1 - g i) := by
  induction n, hmn using Nat.le_induction with
  | base => exact le_refl _
  | succ n hmn ih =>
    rw [Finset.prod_range_succ]
    have h1 : 0 ≤ ∏ i in Finset.range n, (1 - g i) :=
      prod_one_sub_nonneg g n (fun i => (h i).2)
    have h2 : 1 - g n ≤ 1 := by linarith [(h n).1]
    exact le_trans (mul_le_of_le_one_right h1 h2) ih

theorem Icc_int_eq_image (n : ℕ) :
    Finset.Icc (1 : ℤ) (n : ℤ) = Finset.image (fun i : ℕ => 1 + (i : ℤ)) (Finset.range n) := by
  ext a
  simp only [Finset.mem_Icc, Finset.mem_image, Finset.mem_range]
  constructor
  · intro h
    exact ⟨(a - 1).toNat, by omega, by omega⟩
  · rintro ⟨i, hi, rfl⟩
    omega

theorem code_prod_eq_spec_prod (f : ℤ → ℚ) (b m : ℤ) :
    ∏ i in Finset.range m.toNat, f (b + 1 + (i : ℤ)) = ∏ i in Finset.Icc (1 : ℤ) m, f (b + i) := by
  rcases le_or_lt 0 m with hm | hm
  · obtain ⟨n, rfl⟩ : ∃ n : ℕ, m = (n : ℤ) := ⟨m.toNat, by omega⟩
    rw [Int.toNat_natCast, Icc_int_eq_image, Finset.prod_image (by intro i _ j _ h; omega)]
    apply Finset.prod_congr rfl
    intro i _
    congr 1
    ring
  · have h1 : m.toNat = 0 := by omega
    rw [h1, Finset.Icc_eq_empty (by omega)]
    simp

/-! ### Claims about the engine orchestration and the projector -/

namespace IRS_Mortality

theorem published_iff (y : ℤ) : published y ↔ 2009 ≤ y ∧ y ≤ 2024 := by
  show y ∈ published_years ↔ _
  rw [published_years]
  constructor
  · intro h
    obtain ⟨i, hi, hy⟩ := List.mem_map.mp h
    rw [List.mem_range] at hi
    have hy2 : (2009 : ℤ) + (i : ℤ) = y := hy
    omega
  · intro h
    refine List.mem_map.mpr ⟨(y - 2009).toNat, List.mem_range.mpr (by omega), ?_⟩
    show (2009 : ℤ) + ((y - 2009).toNat : ℤ) = y
    omega

theorem not_published (y : ℤ) (h : 2025 ≤ y) : ¬ published y := by
  rw [published_iff]
  omega

theorem code_prod_eq_spec_prod_impr (p : Params) (s : String) (a b m : ℤ) :
    ∏ i in Finset.range m.toNat, (1 - p.improvement_table s (b + 1 + (i : ℤ)) a) =
    ∏ i in Finset.Icc (1 : ℤ) m, (1 - p.improvement_table s (b + i) a) :=
  code_prod_eq_spec_prod (fun j => 1 - p.improvement_table s j a) b m

/-- Claim C1: on the derived path, every 430 rate with non-negative
projection duration equals the spec formula: round-half-up to 6 decimals of
the linear interpolation between the rounded lower and higher compounded
rates, with `span_lower = (calc_year - base_year) + floor(duration)`
factors for the lower rate and one more for the higher rate. -/
theorem c1_projector_matches_spec (p : Params) (y : ℤ) (type : String) (age : ℤ)
    (hy1 : 2025 ≤ y) (hy2 : y ≤ 2099) (ht : type ∈ types_430)
    (ha1 : 15 ≤ age) (ha2 : age ≤ 120)
    (hd : 0 ≤ p.projection_years type age) :
    IRS_430_table p y type age = spec_430_rate p y type age := by
  rw [IRS_430_table, if_neg (not_published y hy1)]
  simp only [calculate_430_rate, spec_430_rate]
  rw [pytrunc, if_pos hd, pymod1]
  rw [code_prod_eq_spec_prod_impr p (sexOf type) age p.base_year
        (y - p.base_year + ⌊p.projection_years type age⌋),
      code_prod_eq_spec_prod_impr p (sexOf type) age p.base_year
        (y - p.base_year + ⌊p.projection_years type age⌋ + 1)]

/-- Witness for claim C1 at a concrete parameter set. -/
theorem c1_witness :
    IRS_430_table trivialParams 2030 "Male EE" 20 = spec_430_rate trivialParams 2030 "Male EE" 20 :=
  c1_projector_matches_spec trivialParams 2030 "Male EE" 20 (by norm_num) (by norm_num)
    (by decide) (by norm_num) (by norm_num) (by norm_num [trivialParams])

/-- Claim C2: on the derived path the static rate is the blend
`HA * weight + EE * (1 - weight)` of the just-computed 430 rates, rounded
half-up to 6 decimals and then re-rounded half-up to 5 decimals, and the
417e rate is the average of the just-computed male and female static rates
rounded once, half-up, to 5 decimals. -/
theorem c2_blend_and_average_formula (p : Params) (y a : ℤ) (sex : String)
    (hy1 : 2025 ≤ y) (hy2 : y ≤ 2099) :
    IRS_430_static_table p y sex a =
      excelRound (excelRound (IRS_430_table p y (sex ++ " HA") a * p.blending_table sex a
        + IRS_430_table p y (sex ++ " EE") a * (1 - p.blending_table sex a)) 6) 5 ∧
    IRS_417e_table p y a =
      excelRound ((IRS_430_static_table p y "Male" a + IRS_430_static_table p y "Female" a) / 2) 5 := by
  have hnp : ¬ published y := not_published y hy1
  rw [IRS_430_static_table, IRS_417e_table, IRS_430_table, if_neg hnp, if_neg hnp, if_neg hnp]
  exact ⟨rfl, rfl⟩

/-- Witness for claim C2 at a concrete parameter set. -/
theorem c2_witness :
    IRS_430_static_table trivialParams 2030 "Male" 20 =
      excelRound (excelRound (IRS_430_table trivialParams 2030 "Male HA" 20 * trivialParams.blending_table "Male" 20
        + IRS_430_table trivialParams 2030 "Male EE" 20 * (1 - trivialParams.blending_table "Male" 20)) 6) 5 ∧
    IRS_417e_table trivialParams 2030 20 =
      excelRound ((IRS_430_static_table trivialParams 2030 "Male" 20
        + IRS_430_static_table trivialParams 2030 "Female" 20) / 2) 5 :=
  c2_blend_and_average_formula trivialParams 2030 20 "Male" (by norm_num) (by norm_num)

/-- Claim C3: for calculation years 2009 to 2024 each of the three output
tables is the corresponding published entry; for 2025 to 2099 each is the
freshly derived table (projector, then blender over the just-computed 430
table, then averager over the just-computed static table, as encoded by
the three `calculate` functions). -/
theorem c3_published_or_derived (p : Params) (y : ℤ) :
    (2009 ≤ y ∧ y ≤ 2024 →
      IRS_430_table p y = p.published_430_table y ∧
      IRS_430_static_table p y = p.published_static_table y ∧
      IRS_417e_table p y = p.published_417e_table y) ∧
    (2025 ≤ y ∧ y ≤ 2099 →
      IRS_430_table p y = calculate_430_rate p y ∧
      IRS_430_static_table p y = calculate_430_static_rate p y ∧
      IRS_417e_table p y = calculate_417e_rate p y) := by
  constructor
  · intro h
    have hp : published y := (published_iff y).mpr h
    rw [IRS_430_table, IRS_430_static_table, IRS_417e_table, if_pos hp, if_pos hp, if_pos hp]
    exact ⟨rfl, rfl, rfl⟩
  · intro h
    have hp : ¬ published y := not_published y h.1
    rw [IRS_430_table, IRS_430_static_table, IRS_417e_table, if_neg hp, if_neg hp, if_neg hp]
    exact ⟨rfl, rfl, rfl⟩

/-- Claim C4: constructing the engine fails with a range error exactly for
calculation years outside 2009 to 2099, and succeeds on the whole closed
interval, boundaries included. -/
theorem c4_constructor_range_check (y : ℤ) :
    ((∃ e, init y = Except.error e) ↔ (y < 2009 ∨ 2099 < y)) ∧
    (2009 ≤ y ∧ y ≤ 2099 → init y = Except.ok y) := by
  simp only [init, max_year, min_year]
  by_cases hc : y > 2099 ∨ y < 2009
  · rw [if_pos hc]
    refine ⟨⟨fun _ => by omega, fun _ => ⟨_, rfl⟩⟩, fun h => absurd hc (by omega)⟩
  · rw [if_neg hc]
    constructor
    · constructor
      · rintro ⟨e, he⟩
        cases he
      · intro h
        exact absurd h (by omega)
    · intro _
      rfl

/-- Core antitonicity of the projected 430 rate in the calculation year:
one more year of compounding with improvement factors in the unit interval
never increases the rate, through all three roundings. -/
theorem calculate_430_anti (p : Params) (type : String) (age y : ℤ)
    (hb : 0 ≤ p.base_table type age)
    (hi : ∀ j : ℤ, 0 ≤ p.improvement_table (sexOf type) j age ∧
      p.improvement_table (sexOf type) j age ≤ 1) :
    calculate_430_rate p (y + 1) type age ≤ calculate_430_rate p y type age := by
  simp only [calculate_430_rate]
  set b := p.base_year with hbdef
  set d := p.projection_years type age with hddef
  set n := pytrunc d with hndef
  set g : ℕ → ℚ := fun i => p.improvement_table (sexOf type) (b + 1 + (i : ℤ)) age with hg
  have e1 : (y + 1 - b + n).toNat = (y - b + n + 1).toNat := by omega
  have e2 : (y + 1 - b + n + 1).toNat = (y - b + n + 1 + 1).toNat := by omega
  rw [e1, e2]
  have hgle : ∀ i, 0 ≤ g i ∧ g i ≤ 1 := fun i => hi _
  have key : ∀ k : ℕ, 0 ≤ ∏ i in Finset.range k, (1 - g i) :=
    fun k => prod_one_sub_nonneg g k (fun i => (hgle i).2)
  have anti : ∀ {k l : ℕ}, k ≤ l →
      (∏ i in Finset.range l, (1 - g i)) ≤ ∏ i in Finset.range k, (1 - g i) :=
    fun h => prod_one_sub_anti g hgle h
  set r := pymod1 d with hr
  have hr0 : 0 ≤ r := by
    rw [hr, pymod1]
    have := Int.floor_le d
    linarith
  have hr1 : r ≤ 1 := by
    rw [hr, pymod1]
    have := Int.lt_floor_add_one d
    push_cast at this ⊢
    linarith
  set P0 := ∏ i in Finset.range (y - b + n).toNat, (1 - g i) with hP0
  set P1 := ∏ i in Finset.range (y - b + n + 1).toNat, (1 - g i) with hP1
  set P2 := ∏ i in Finset.range (y - b + n + 1 + 1).toNat, (1 - g i) with hP2
  have hP21 : p.base_table type age * P2 ≤ p.base_table type age * P1 :=
    mul_le_mul_of_nonneg_left (anti (Int.toNat_le_toNat (by omega))) hb
  have hP10 : p.base_table type age * P1 ≤ p.base_table type age * P0 :=
    mul_le_mul_of_nonneg_left (anti (Int.toNat_le_toNat (by omega))) hb
  have hge2 : 0 ≤ p.base_table type age * P2 := mul_nonneg hb (key _)
  have hge1 : 0 ≤ p.base_table type age * P1 := mul_nonneg hb (key _)
  have hHM : excelRound (p.base_table type age * P2) 6 ≤ excelRound (p.base_table type age * P1) 6 :=
    excelRound_le_excelRound 6 hge2 hP21
  have hML : excelRound (p.base_table type age * P1) 6 ≤ excelRound (p.base_table type age * P0) 6 :=
    excelRound_le_excelRound 6 hge1 hP10
  have hH0 : 0 ≤ excelRound (p.base_table type age * P2) 6 := excelRound_nonneg _ 6 hge2
  have hM0 : 0 ≤ excelRound (p.base_table type age * P1) 6 := excelRound_nonneg _ 6 hge1
  apply excelRound_le_excelRound 6
  · have ha : 0 ≤ (1 - r) * excelRound (p.base_table type age * P1) 6 :=
      mul_nonneg (by linarith) hM0
    have hc : 0 ≤ r * excelRound (p.base_table type age * P2) 6 := mul_nonneg hr0 hH0
    linarith
  · have h1 : (1 - r) * excelRound (p.base_table type age * P1) 6 ≤
        (1 - r) * excelRound (p.base_table type age * P0) 6 :=
      mul_le_mul_of_nonneg_left hML (by linarith)
    have h2 : r * excelRound (p.base_table type age * P2) 6 ≤
        r * excelRound (p.base_table type age * P1) 6 :=
      mul_le_mul_of_nonneg_left hHM hr0
    linarith

/-- Claim C7: holding category and age fixed, with non-negative base rate
and improvement factors in the open unit interval, moving from one
derivable year to the next never increases the projected 430 rate. -/
theorem c7_projection_antitone (p : Params) (type : String) (age y : ℤ)
    (hy1 : 2025 ≤ y) (hy2 : y + 1 ≤ 2099)
    (hb : 0 ≤ p.base_table type age)
    (hi : ∀ j : ℤ, 0 < p.improvement_table (sexOf type) j age ∧
      p.improvement_table (sexOf type) j age < 1) :
    IRS_430_table p (y + 1) type age ≤ IRS_430_table p y type age := by
  rw [IRS_430_table, IRS_430_table, if_neg (not_published (y + 1) (by omega)),
    if_neg (not_published y hy1)]
  exact calculate_430_anti p type age y hb (fun j => ⟨(hi j).1.le, (hi j).2.le⟩)

/-- Witness for claim C7 at a concrete parameter set. -/
theorem c7_witness :
    IRS_430_table trivialParams 2031 "Male EE" 20 ≤ IRS_430_table trivialParams 2030 "Male EE" 20 := by
  have h := c7_projection_antitone trivialParams "Male EE" 20 2030 (by norm_num) (by norm_num)
    (by norm_num [trivialParams])
    (fun j => by constructor <;> norm_num [trivialParams])
  norm_num at h
  exact h

theorem blend_nonneg_aux (EE HA w : ℚ) (hEE : 0 ≤ EE) (hHA : 0 ≤ HA)
    (hw0 : 0 ≤ w) (hw1 : w ≤ 1) : 0 ≤ HA * w + EE * (1 - w) :=
  add_nonneg (mul_nonneg hHA hw0) (mul_nonneg hEE (by linarith))

/-- The calculated 430 rate is a non-negative multiple of `10⁻⁶`: it is the
output of the final 6-decimal rounding of the projector. -/
theorem calculate_430_int (p : Params) (y : ℤ) (type : String) (age : ℤ)
    (hb : 0 ≤ p.base_table type age)
    (hi : ∀ j : ℤ, p.improvement_table (sexOf type) j age ≤ 1) :
    ∃ m : ℤ, 0 ≤ m ∧ calculate_430_rate p y type age = (m : ℚ) / 10 ^ 6 := by
  simp only [calculate_430_rate]
  set g : ℕ → ℚ := fun i => p.improvement_table (sexOf type) (p.base_year + 1 + (i : ℤ)) age
    with hg
  have key : ∀ k : ℕ, 0 ≤ ∏ i in Finset.range k, (1 - g i) :=
    fun k => prod_one_sub_nonneg g k (fun i => hi _)
  set d := p.projection_years type age with hd
  have hr0 : 0 ≤ pymod1 d := by
    rw [pymod1]
    have := Int.floor_le d
    linarith
  have hr1 : pymod1 d ≤ 1 := by
    rw [pymod1]
    have := Int.lt_floor_add_one d
    push_cast at this ⊢
    linarith
  set P1 := ∏ i in Finset.range (y - p.base_year + pytrunc d).toNat, (1 - g i) with hP1
  set P2 := ∏ i in Finset.range (y - p.base_year + pytrunc d + 1).toNat, (1 - g i) with hP2
  have h1 : 0 ≤ excelRound (p.base_table type age * P1) 6 :=
    excelRound_nonneg _ 6 (mul_nonneg hb (key _))
  have h2 : 0 ≤ excelRound (p.base_table type age * P2) 6 :=
    excelRound_nonneg _ 6 (mul_nonneg hb (key _))
  have hX : 0 ≤ (1 - pymod1 d) * excelRound (p.base_table type age * P1) 6 +
      pymod1 d * excelRound (p.base_table type age * P2) 6 :=
    add_nonneg (mul_nonneg (by linarith) h1) (mul_nonneg hr0 h2)
  obtain ⟨m, hm, hm0⟩ := excelRound_eq_int_div ((1 - pymod1 d) *
    excelRound (p.base_table type age * P1) 6 +
    pymod1 d * excelRound (p.base_table type age * P2) 6) 6
  exact ⟨m, hm0 hX, hm⟩

theorem calculate_430_nonneg (p : Params) (y : ℤ) (type : String) (age : ℤ)
    (hb : 0 ≤ p.base_table type age)
    (hi : ∀ j : ℤ, p.improvement_table (sexOf type) j age ≤ 1) :
    0 ≤ calculate_430_rate p y type age := by
  obtain ⟨m, hm0, hm⟩ := calculate_430_int p y type age hb hi
  rw [hm]
  exact div_nonneg (by exact_mod_cast hm0) (by positivity)

/-- Range of the doubly rounded blend when both inputs are non-negative
multiples of `10⁻⁶`: non-negative, and at most the once-rounded maximum of
the two inputs. -/
theorem blend_round_bounds (EE HA w : ℚ) (r5 : ℕ)
    (hEE : ∃ m : ℤ, 0 ≤ m ∧ EE = (m : ℚ) / 10 ^ 6)
    (hHA : ∃ m : ℤ, 0 ≤ m ∧ HA = (m : ℚ) / 10 ^ 6)
    (hw0 : 0 ≤ w) (hw1 : w ≤ 1) :
    0 ≤ excelRound (excelRound (HA * w + EE * (1 - w)) 6) r5 ∧
    excelRound (excelRound (HA * w + EE * (1 - w)) 6) r5 ≤ excelRound (max EE HA) r5 := by
  obtain ⟨mE, hmE0, hmE⟩ := hEE
  obtain ⟨mH, hmH0, hmH⟩ := hHA
  have hEE0 : 0 ≤ EE := by
    rw [hmE]
    exact div_nonneg (by exact_mod_cast hmE0) (by positivity)
  have hHA0 : 0 ≤ HA := by
    rw [hmH]
    exact div_nonneg (by exact_mod_cast hmH0) (by positivity)
  have hM6 : excelRound (max EE HA) 6 = max EE HA := by
    rcases max_cases EE HA with ⟨hm, _⟩ | ⟨hm, _⟩
    · rw [hm, hmE]
      exact excelRound_int mE 6 hmE0
    · rw [hm, hmH]
      exact excelRound_int mH 6 hmH0
  have hb0 : 0 ≤ HA * w + EE * (1 - w) := blend_nonneg_aux EE HA w hEE0 hHA0 hw0 hw1
  have hbM : HA * w + EE * (1 - w) ≤ max EE HA := by
    have h1 : HA * w ≤ max EE HA * w := mul_le_mul_of_nonneg_right (le_max_right _ _) hw0
    have h2 : EE * (1 - w) ≤ max EE HA * (1 - w) :=
      mul_le_mul_of_nonneg_right (le_max_left _ _) (by linarith)
    have h3 : max EE HA * w + max EE HA * (1 - w) = max EE HA := by ring
    linarith
  have h60 : 0 ≤ excelRound (HA * w + EE * (1 - w)) 6 := excelRound_nonneg _ 6 hb0
  have h6M : excelRound (HA * w + EE * (1 - w)) 6 ≤ max EE HA := by
    have := excelRound_le_excelRound 6 hb0 hbM
    rwa [hM6] at this
  exact ⟨excelRound_nonneg _ r5 h60, excelRound_le_excelRound r5 h60 h6M⟩

/-- Range of the rounded average of two non-negative multiples of the
rounding unit: it stays between the two inputs. -/
theorem average_round_bounds (Sm Sf : ℚ) (r5 : ℕ)
    (hSm : ∃ m : ℤ, 0 ≤ m ∧ Sm = (m : ℚ) / 10 ^ r5)
    (hSf : ∃ m : ℤ, 0 ≤ m ∧ Sf = (m : ℚ) / 10 ^ r5) :
    min Sm Sf ≤ excelRound ((Sm + Sf) / 2) r5 ∧
    excelRound ((Sm + Sf) / 2) r5 ≤ max Sm Sf := by
  obtain ⟨mm, hmm0, hmm⟩ := hSm
  obtain ⟨mf, hmf0, hmf⟩ := hSf
  have hSm0 : 0 ≤ Sm := by
    rw [hmm]
    exact div_nonneg (by exact_mod_cast hmm0) (by positivity)
  have hSf0 : 0 ≤ Sf := by
    rw [hmf]
    exact div_nonneg (by exact_mod_cast hmf0) (by positivity)
  have hmin0 : 0 ≤ min Sm Sf := le_min hSm0 hSf0
  have hfixmin : excelRound (min Sm Sf) r5 = min Sm Sf := by
    rcases min_cases Sm Sf with ⟨hm, _⟩ | ⟨hm, _⟩
    · rw [hm, hmm]
      exact excelRound_int mm r5 hmm0
    · rw [hm, hmf]
      exact excelRound_int mf r5 hmf0
  have hmaxfix : excelRound (max Sm Sf) r5 = max Sm Sf := by
    rcases max_cases Sm Sf with ⟨hm, _⟩ | ⟨hm, _⟩
    · rw [hm, hmm]
      exact excelRound_int mm r5 hmm0
    · rw [hm, hmf]
      exact excelRound_int mf r5 hmf0
  have havg1 : min Sm Sf ≤ (Sm + Sf) / 2 := by
    have h1 := min_le_left Sm Sf
    have h2 := min_le_right Sm Sf
    linarith
  have havg2 : (Sm + Sf) / 2 ≤ max Sm Sf := by
    have h1 := le_max_left Sm Sf
    have h2 := le_max_right Sm Sf
    linarith
  constructor
  · have h := excelRound_le_excelRound r5 hmin0 havg1
    rwa [hfixmin] at h
  · have h0 : 0 ≤ (Sm + Sf) / 2 := by linarith
    have h := excelRound_le_excelRound r5 h0 havg2
    rwa [hmaxfix] at h

/-- The calculated static rate is a non-negative multiple of `10⁻⁵`. -/
theorem calculate_430_static_int (p : Params) (y : ℤ) (sex : String) (age : ℤ)
    (hbE : 0 ≤ p.base_table (sex ++ " EE") age)
    (hbH : 0 ≤ p.base_table (sex ++ " HA") age)
    (hiE : ∀ j : ℤ, p.improvement_table (sexOf (sex ++ " EE")) j age ≤ 1)
    (hiH : ∀ j : ℤ, p.improvement_table (sexOf (sex ++ " HA")) j age ≤ 1)
    (hw0 : 0 ≤ p.blending_table sex age) (hw1 : p.blending_table sex age ≤ 1) :
    ∃ m : ℤ, 0 ≤ m ∧ calculate_430_static_rate p y sex age = (m : ℚ) / 10 ^ 5 := by
  have hEE0 : 0 ≤ calculate_430_rate p y (sex ++ " EE") age :=
    calculate_430_nonneg p y (sex ++ " EE") age hbE hiE
  have hHA0 : 0 ≤ calculate_430_rate p y (sex ++ " HA") age :=
    calculate_430_nonneg p y (sex ++ " HA") age hbH hiH
  have hb0 : 0 ≤ calculate_430_rate p y (sex ++ " HA") age * p.blending_table sex age +
      calculate_430_rate p y (sex ++ " EE") age * (1 - p.blending_table sex age) :=
    blend_nonneg_aux _ _ _ hEE0 hHA0 hw0 hw1
  have h6 : 0 ≤ excelRound (calculate_430_rate p y (sex ++ " HA") age * p.blending_table sex age +
      calculate_430_rate p y (sex ++ " EE") age * (1 - p.blending_table sex age)) 6 :=
    excelRound_nonneg _ 6 hb0
  obtain ⟨m, hm, hm0⟩ := excelRound_eq_int_div
    (excelRound (calculate_430_rate p y (sex ++ " HA") age * p.blending_table sex age +
      calculate_430_rate p y (sex ++ " EE") age * (1 - p.blending_table sex age)) 6) 5
  exact ⟨m, hm0 h6, hm⟩

/-- Claim C8, amended: on the derived path the blended static rate is
non-negative and at most the 5-decimal rounding of the larger of the two
430 rates being blended (the final rounding can exceed the unrounded
maximum by up to half of `10⁻⁵`, so the bound `max(EE, HA)` itself does
not hold); the unisex 417e rate lies between the male and female static
rates inclusive, as claimed. -/
theorem c8_blend_average_range_amended (p : Params) (y age : ℤ) (sex : String)
    (hy1 : 2025 ≤ y) (hy2 : y ≤ 2099)
    (hb : ∀ t : String, 0 ≤ p.base_table t age)
    (hi : ∀ s : String, ∀ j : ℤ, p.improvement_table s j age ≤ 1)
    (hw : ∀ s : String, 0 ≤ p.blending_table s age ∧ p.blending_table s age ≤ 1) :
    0 ≤ IRS_430_static_table p y sex age ∧
    IRS_430_static_table p y sex age ≤
      excelRound (max (IRS_430_table p y (sex ++ " EE") age)
        (IRS_430_table p y (sex ++ " HA") age)) 5 ∧
    min (IRS_430_static_table p y "Male" age) (IRS_430_static_table p y "Female" age) ≤
      IRS_417e_table p y age ∧
    IRS_417e_table p y age ≤
      max (IRS_430_static_table p y "Male" age) (IRS_430_static_table p y "Female" age) := by
  have hnp : ¬ published y := not_published y hy1
  rw [IRS_430_static_table, IRS_430_table, IRS_417e_table, if_neg hnp, if_neg hnp, if_neg hnp]
  have hblend := blend_round_bounds (calculate_430_rate p y (sex ++ " EE") age)
    (calculate_430_rate p y (sex ++ " HA") age) (p.blending_table sex age) 5
    (calculate_430_int p y (sex ++ " EE") age (hb _) (hi _))
    (calculate_430_int p y (sex ++ " HA") age (hb _) (hi _))
    (hw sex).1 (hw sex).2
  have havg := average_round_bounds (calculate_430_static_rate p y "Male" age)
    (calculate_430_static_rate p y "Female" age) 5
    (calculate_430_static_int p y "Male" age (hb _) (hb _) (hi _) (hi _)
      (hw "Male").1 (hw "Male").2)
    (calculate_430_static_int p y "Female" age (hb _) (hb _) (hi _) (hi _)
      (hw "Female").1 (hw "Female").2)
  exact ⟨hblend.1, hblend.2, havg.1, havg.2⟩

/-- Counterexample to claim C8 as stated: with base rate `0.000115`, no
improvement and blending weight one half, both 430 rates are `0.000115`
but the blended static rate is `0.00012`, above `max(EE, HA)`. -/
theorem c8_counterexample :
    ¬ (IRS_430_static_table blendCexParams 2025 "Male" 15 ≤
      max (IRS_430_table blendCexParams 2025 "Male EE" 15)
        (IRS_430_table blendCexParams 2025 "Male HA" 15)) := by
  with_unfolding_all decide

/-- Witness for the amended claim C8 at a concrete parameter set. -/
theorem c8_witness :
    0 ≤ IRS_430_static_table trivialParams 2030 "Male" 20 ∧
    IRS_430_static_table trivialParams 2030 "Male" 20 ≤
      excelRound (max (IRS_430_table trivialParams 2030 "Male EE" 20)
        (IRS_430_table trivialParams 2030 "Male HA" 20)) 5 ∧
    min (IRS_430_static_table trivialParams 2030 "Male" 20)
      (IRS_430_static_table trivialParams 2030 "Female" 20) ≤
      IRS_417e_table trivialParams 2030 20 ∧
    IRS_417e_table trivialParams 2030 20 ≤
      max (IRS_430_static_table trivialParams 2030 "Male" 20)
        (IRS_430_static_table trivialParams 2030 "Female" 20) :=
  c8_blend_average_range_amended trivialParams 2030 20 "Male" (by norm_num) (by norm_num)
    (fun t => by norm_num [trivialParams])
    (fun s j => by norm_num [trivialParams])
    (fun s => by constructor <;> norm_num [trivialParams])

/-- Claim C9, amended: the full-table accessor is a mapping with exactly
the three keys `430 Table`, `430 Static Table` and `417e Table` (not
`430`, `430Static`, `417e`), whose values are the tables returned by the
three individual accessors of the same engine. -/
theorem c9_full_table_amended (p : Params) (y : ℤ) :
    (full_table p y).map Prod.fst = ["430 Table", "430 Static Table", "417e Table"] ∧
    (full_table p y).lookup "430 Table" = some (TableVal.byCategory (IRS_430_table p y)) ∧
    (full_table p y).lookup "430 Static Table" = some (TableVal.byCategory (IRS_430_static_table p y)) ∧
    (full_table p y).lookup "417e Table" = some (TableVal.byAge (IRS_417e_table p y)) :=
  ⟨rfl, rfl, rfl, rfl⟩

/-- Counterexample to claim C9 as stated: the keys of the full table are
not the claimed `430`, `430Static`, `417e`. -/
theorem c9_counterexample :
    (full_table trivialParams 2025).map Prod.fst ≠ ["430", "430Static", "417e"] := by
  with_unfolding_all decide

end IRS_Mortality

/-! ### Association-list lemmas for the dict embedding -/

namespace ImprovementTable

theorem keysOf_append {α : Type} (t s : List (ℤ × α)) :
    keysOf (t ++ s) = keysOf t ++ keysOf s := by
  simp [keysOf]

theorem keysOf_map_value (t : Surface) (F : AgeTable → AgeTable) :
    keysOf (t.map (fun p => (p.1, F p.2))) = keysOf t := by
  simp only [keysOf, List.map_map]
  rfl

theorem nodup_of_sorted (l : List ℤ) (h : l.Pairwise (· < ·)) : l.Nodup :=
  h.imp (fun hab => ne_of_lt hab)

theorem lookup_map_value (t : Surface) (F : AgeTable → AgeTable) (k : ℤ) :
    (t.map (fun p => (p.1, F p.2))).lookup k = (t.lookup k).map F := by
  induction t with
  | nil => rfl
  | cons p rest ih =>
    obtain ⟨pk, pv⟩ := p
    by_cases hk : k = pk
    · subst hk
      simp [List.lookup]
    · have hb : (k == pk) = false := by simp [hk]
      simp [List.lookup, hb, ih]

theorem lookup_append_left {α : Type} (t s : List (ℤ × α)) (k : ℤ) (h : k ∈ keysOf t) :
    (t ++ s).lookup k = t.lookup k := by
  induction t with
  | nil => cases h
  | cons p rest ih =>
    obtain ⟨pk, pv⟩ := p
    by_cases hk : k = pk
    · subst hk
      simp [List.lookup]
    · have hb : (k == pk) = false := by simp [hk]
      have h2 : k ∈ keysOf rest := by
        simp [keysOf] at h
        rcases h with h | h
        · exact absurd h hk
        · simpa [keysOf] using h
      simp [List.lookup, hb, ih h2]

theorem lookup_append_right {α : Type} (t s : List (ℤ × α)) (k : ℤ) (h : k ∉ keysOf t) :
    (t ++ s).lookup k = s.lookup k := by
  induction t with
  | nil => rfl
  | cons p rest ih =>
    obtain ⟨pk, pv⟩ := p
    have hk : k ≠ pk := by
      intro he
      exact h (by simp [keysOf, he])
    have hb : (k == pk) = false := by simp [hk]
    have h2 : k ∉ keysOf rest := by
      intro hm
      exact h (by simp [keysOf] at hm ⊢; right; exact hm)
    simp [List.lookup, hb, ih h2]

theorem lookup_isSome_of_mem_keys {α : Type} (t : List (ℤ × α)) (k : ℤ) (h : k ∈ keysOf t) :
    ∃ v, t.lookup k = some v := by
  induction t with
  | nil => cases h
  | cons p rest ih =>
    obtain ⟨pk, pv⟩ := p
    by_cases hk : k = pk
    · subst hk
      exact ⟨pv, by simp [List.lookup]⟩
    · have hb : (k == pk) = false := by simp [hk]
      have h2 : k ∈ keysOf rest := by
        simp [keysOf] at h
        rcases h with h | h
        · exact absurd h hk
        · simpa [keysOf] using h
      obtain ⟨v, hv⟩ := ih h2
      exact ⟨v, by simp [List.lookup, hb, hv]⟩

theorem mem_of_lookup_eq_some {α : Type} (t : List (ℤ × α)) (k : ℤ) (v : α)
    (h : t.lookup k = some v) : (k, v) ∈ t := by
  induction t with
  | nil => cases h
  | cons p rest ih =>
    obtain ⟨pk, pv⟩ := p
    by_cases hk : k = pk
    · subst hk
      simp [List.lookup] at h
      subst h
      exact List.mem_cons_self _ _
    · have hb : (k == pk) = false := by simp [hk]
      simp [List.lookup, hb] at h
      exact List.mem_cons_of_mem _ (ih h)

theorem lookup_all_eq {α : Type} (t : List (ℤ × α)) (c : α) (k : ℤ)
    (hall : ∀ p ∈ t, p.2 = c) (h : k ∈ keysOf t) : t.lookup k = some c := by
  induction t with
  | nil => cases h
  | cons p rest ih =>
    obtain ⟨pk, pv⟩ := p
    by_cases hk : k = pk
    · subst hk
      have : pv = c := hall (k, pv) (List.mem_cons_self _ _)
      simp [List.lookup, this]
    · have hb : (k == pk) = false := by simp [hk]
      have h2 : k ∈ keysOf rest := by
        simp [keysOf] at h
        rcases h with h | h
        · exact absurd h hk
        · simpa [keysOf] using h
      simp [List.lookup, hb]
      exact ih (fun p hp => hall p (List.mem_cons_of_mem _ hp)) h2

theorem setKey_notMem {α : Type} (t : List (ℤ × α)) (k : ℤ) (v : α) (h : k ∉ keysOf t) :
    setKey t k v = t ++ [(k, v)] := by
  rw [setKey, if_neg h]

theorem dictUpdate_eq_append {α : Type} (t news : List (ℤ × α))
    (hdisj : ∀ k ∈ keysOf news, k ∉ keysOf t) (hnd : (keysOf news).Nodup) :
    dictUpdate t news = t ++ news := by
  induction news generalizing t with
  | nil => simp [dictUpdate]
  | cons q rest ih =>
    obtain ⟨qk, qv⟩ := q
    have hq : qk ∉ keysOf t := hdisj qk (by simp [keysOf])
    have hknd : qk ∉ keysOf rest := by
      simp only [keysOf, List.map_cons, List.nodup_cons] at hnd
      exact hnd.1
    have hrest : (keysOf rest).Nodup := by
      simp only [keysOf, List.map_cons, List.nodup_cons] at hnd
      exact hnd.2
    show dictUpdate (setKey t qk qv) rest = t ++ (qk, qv) :: rest
    rw [setKey_notMem t qk qv hq]
    rw [ih (t ++ [(qk, qv)])]
    · simp
    · intro k hk
      rw [keysOf_append]
      simp only [List.mem_append]
      rintro (hmem | hmem)
      · exact hdisj k (by simp [keysOf] at hk ⊢; right; exact hk) hmem
      · simp [keysOf] at hmem
        subst hmem
        exact hknd hk
    · exact hrest

theorem getLast_key_max {α : Type} (t : List (ℤ × α)) (Y : ℤ) (v : α)
    (hs : (keysOf t).Pairwise (· < ·)) (hlast : t.getLast? = some (Y, v)) :
    ∀ k ∈ keysOf t, k ≤ Y := by
  induction t with
  | nil => simp at hlast
  | cons p rest ih =>
    cases rest with
    | nil =>
      simp only [List.getLast?_singleton, Option.some.injEq] at hlast
      intro k hk
      subst hlast
      simp [keysOf] at hk
      omega
    | cons q rest2 =>
      rw [List.getLast?_cons_cons] at hlast
      have hmem : (Y, v) ∈ q :: rest2 := List.mem_of_mem_getLast? hlast
      have hYk : Y ∈ keysOf (q :: rest2) := by
        simp only [keysOf, List.mem_map]
        exact ⟨(Y, v), hmem, rfl⟩
      intro k hk
      simp only [keysOf, List.map_cons, List.mem_cons] at hk
      rcases hk with hk | hk
      · have hlt := (List.pairwise_cons.mp hs).1 Y hYk
        omega
      · exact ih (List.pairwise_cons.mp hs).2 hlast k (by simpa [keysOf] using hk)

theorem lookup_getLast {α : Type} (t : List (ℤ × α)) (Y : ℤ) (v : α)
    (hs : (keysOf t).Pairwise (· < ·)) (hlast : t.getLast? = some (Y, v)) :
    t.lookup Y = some v := by
  induction t with
  | nil => simp at hlast
  | cons p rest ih =>
    obtain ⟨pk, pv⟩ := p
    cases rest with
    | nil =>
      simp only [List.getLast?_singleton, Option.some.injEq] at hlast
      injection hlast with h1 h2
      subst h1
      subst h2
      simp [List.lookup]
    | cons q rest2 =>
      rw [List.getLast?_cons_cons] at hlast
      have hmem : (Y, v) ∈ q :: rest2 := List.mem_of_mem_getLast? hlast
      have hYk : Y ∈ keysOf (q :: rest2) := by
        simp only [keysOf, List.mem_map]
        exact ⟨(Y, v), hmem, rfl⟩
      have hlt := (List.pairwise_cons.mp hs).1 Y hYk
      have hb : (Y == pk) = false := by simp; omega
      simp [List.lookup, hb]
      exact ih (List.pairwise_cons.mp hs).2 hlast

theorem head_le_of_sorted (l : List ℤ) (a0 : ℤ) (hs : l.Pairwise (· < ·))
    (hh : l.head? = some a0) : ∀ a ∈ l, a0 ≤ a := by
  cases l with
  | nil => simp at hh
  | cons b rest =>
    have hb : b = a0 := by simpa using hh
    subst hb
    intro a ha
    rcases List.mem_cons.mp ha with rfl | ha2
    · exact le_refl a
    · exact ((List.pairwise_cons.mp hs).1 a ha2).le

end ImprovementTable

namespace ImprovementTable

theorem keysOf_lowAges (fa : ℤ) (tbl : AgeTable) :
    keysOf (lowAges fa tbl) =
      (List.range (fa - 15).toNat).map (fun i : ℕ => (15 : ℤ) + (i : ℤ)) := by
  simp only [keysOf, lowAges, List.map_map]
  rfl

theorem mem_keysOf_lowAges (fa : ℤ) (tbl : AgeTable) (k : ℤ) :
    k ∈ keysOf (lowAges fa tbl) ↔ 15 ≤ k ∧ k < 15 + ((fa - 15).toNat : ℤ) := by
  rw [keysOf_lowAges]
  simp only [List.mem_map, List.mem_range]
  constructor
  · rintro ⟨i, hi, rfl⟩
    omega
  · intro h
    exact ⟨(k - 15).toNat, by omega, by omega⟩

theorem nodup_keysOf_lowAges (fa : ℤ) (tbl : AgeTable) : (keysOf (lowAges fa tbl)).Nodup := by
  rw [keysOf_lowAges]
  apply List.Nodup.map
  · intro i j h
    have h2 : (15 : ℤ) + (i : ℤ) = 15 + (j : ℤ) := h
    omega
  · exact List.nodup_range _

theorem lowAges_values (fa : ℤ) (tbl : AgeTable) :
    ∀ p ∈ lowAges fa tbl, p.2 = (tbl.lookup fa).getD 0 := by
  intro p hp
  simp only [lowAges, List.mem_map] at hp
  obtain ⟨i, hi, rfl⟩ := hp
  rfl

theorem lowAges_head (fa : ℤ) (tbl : AgeTable) (h : 15 < fa) :
    (lowAges fa tbl).head? = some (15, (tbl.lookup fa).getD 0) := by
  rw [lowAges]
  have hn : (fa - 15).toNat = ((fa - 15).toNat - 1) + 1 := by omega
  rw [hn, List.range_succ_eq_map]
  simp

theorem extendAges_eq_append (fa : ℤ) (tbl : AgeTable)
    (hnd : (keysOf tbl).Nodup) (hge : ∀ a ∈ keysOf tbl, fa ≤ a) :
    extendAges fa tbl = lowAges fa tbl ++ tbl := by
  rw [extendAges]
  apply dictUpdate_eq_append
  · intro k hk
    have h1 := hge k hk
    rw [mem_keysOf_lowAges]
    omega
  · exact hnd

theorem keysOf_year_ext (Y : ℤ) (L : AgeTable) (n : ℕ) :
    keysOf ((List.range n).map (fun i : ℕ => (Y + 1 + (i : ℤ), L))) =
      (List.range n).map (fun i : ℕ => Y + 1 + (i : ℤ)) := by
  simp only [keysOf, List.map_map]
  rfl

theorem mem_keysOf_year_ext (Y : ℤ) (L : AgeTable) (n : ℕ) (k : ℤ) :
    k ∈ keysOf ((List.range n).map (fun i : ℕ => (Y + 1 + (i : ℤ), L))) ↔
      Y + 1 ≤ k ∧ k < Y + 1 + (n : ℤ) := by
  rw [keysOf_year_ext]
  simp only [List.mem_map, List.mem_range]
  constructor
  · rintro ⟨i, hi, rfl⟩
    omega
  · intro h
    exact ⟨(k - (Y + 1)).toNat, by omega, by omega⟩

theorem nodup_keysOf_year_ext (Y : ℤ) (L : AgeTable) (n : ℕ) :
    (keysOf ((List.range n).map (fun i : ℕ => (Y + 1 + (i : ℤ), L)))).Nodup := by
  rw [keysOf_year_ext]
  apply List.Nodup.map
  · intro i j h
    have h2 : Y + 1 + (i : ℤ) = Y + 1 + (j : ℤ) := h
    omega
  · exact List.nodup_range _

theorem year_ext_values (Y : ℤ) (L : AgeTable) (n : ℕ) :
    ∀ p ∈ (List.range n).map (fun i : ℕ => (Y + 1 + (i : ℤ), L)), p.2 = L := by
  intro p hp
  simp only [List.mem_map] at hp
  obtain ⟨i, hi, rfl⟩ := hp
  rfl

theorem year_ext_getLast (Y : ℤ) (L : AgeTable) (n : ℕ) (hn : n ≠ 0) :
    ((List.range n).map (fun i : ℕ => (Y + 1 + (i : ℤ), L))).getLast? =
      some (Y + 1 + ((n - 1 : ℕ) : ℤ), L) := by
  have hn2 : n = (n - 1) + 1 := by omega
  rw [hn2, List.range_succ, List.map_append]
  simp

theorem head_append_of_head {α : Type} (t s : List α) (a : α) (h : t.head? = some a) :
    (t ++ s).head? = some a := by
  cases t with
  | nil => simp at h
  | cons b rest => simpa using h

theorem getLast_append_of_ne_nil {α : Type} (t s : List α) (hs : s ≠ []) :
    (t ++ s).getLast? = s.getLast? := by
  induction t with
  | nil => rfl
  | cons b rest ih =>
    rw [List.cons_append]
    cases hsplit : rest ++ s with
    | nil => exact absurd (List.append_eq_nil.mp hsplit).2 hs
    | cons c l2 =>
      rw [hsplit] at ih
      rw [List.getLast?_cons_cons, ih]

end ImprovementTable

namespace ImprovementTable

/-- Reduction of the two matches at the head of `extrapolate`, given the
values of `list(table.keys())[-1]` and `list(table[last_year].keys())[0]`. -/
theorem extrapolate_reduce (t : Surface) (Y2 : ℤ) (T2 : AgeTable) (fa2 : ℤ) (r2 : ℚ)
    (h1 : t.getLast? = some (Y2, T2))
    (h2 : ((t.lookup Y2).getD []).head? = some (fa2, r2)) :
    extrapolate t = extrapAux t Y2 fa2 := by
  rw [extrapolate, h1]
  show (match ((t.lookup Y2).getD []).head? with
    | none => t
    | some (first_age, _) => extrapAux t Y2 first_age) = extrapAux t Y2 fa2
  rw [h2]

theorem extrapAux_eq_append_low (table : Surface) (Y fa : ℤ) (TY : AgeTable)
    (hlookY : table.lookup Y = some TY)
    (hmax : ∀ k ∈ keysOf table, k ≤ Y)
    (h15 : 15 < fa) (hY : Y < maxYear) :
    extrapAux table Y fa =
      table.map (fun p => (p.1, extendAges fa p.2)) ++
        (List.range (maxYear - Y).toNat).map
          (fun i : ℕ => (Y + 1 + (i : ℤ), extendAges fa TY)) := by
  rw [extrapAux]
  rw [if_pos h15, if_pos hY]
  have hlookM : (table.map (fun p => (p.1, extendAges fa p.2))).lookup Y =
      some (extendAges fa TY) := by
    rw [lookup_map_value, hlookY]
    rfl
  rw [hlookM]
  simp only [Option.getD_some]
  apply dictUpdate_eq_append
  · intro k hk
    rw [mem_keysOf_year_ext] at hk
    rw [keysOf_map_value]
    intro hmem
    have := hmax k hmem
    omega
  · exact nodup_keysOf_year_ext Y (extendAges fa TY) _

theorem extrapAux_eq_append_nolow (table : Surface) (Y fa : ℤ) (TY : AgeTable)
    (hlookY : table.lookup Y = some TY)
    (hmax : ∀ k ∈ keysOf table, k ≤ Y)
    (h15 : ¬ 15 < fa) (hY : Y < maxYear) :
    extrapAux table Y fa =
      table ++ (List.range (maxYear - Y).toNat).map
        (fun i : ℕ => (Y + 1 + (i : ℤ), TY)) := by
  rw [extrapAux]
  rw [if_neg h15, if_pos hY]
  rw [hlookY]
  simp only [Option.getD_some]
  apply dictUpdate_eq_append
  · intro k hk
    rw [mem_keysOf_year_ext] at hk
    intro hmem
    have := hmax k hmem
    omega
  · exact nodup_keysOf_year_ext Y TY _

theorem extrapAux_eq_map (table : Surface) (Y fa : ℤ)
    (h15 : 15 < fa) (hY : ¬ Y < maxYear) :
    extrapAux table Y fa = table.map (fun p => (p.1, extendAges fa p.2)) := by
  rw [extrapAux]
  rw [if_pos h15, if_neg hY]

theorem extrapAux_eq_self (table : Surface) (Y fa : ℤ)
    (h15 : ¬ 15 < fa) (hY : ¬ Y < maxYear) :
    extrapAux table Y fa = table := by
  rw [extrapAux]
  rw [if_neg h15, if_neg hY]

end ImprovementTable

namespace ImprovementTable

/-- Under the well-formedness of a loaded surface (insertion order sorted
by year, one shared sorted age list), `extrapolate` reduces to
`extrapAux` at the last year and the first age. -/
theorem extrapolate_eq_extrapAux (table : Surface) (ages : List ℤ) (Y : ℤ)
    (TY : AgeTable) (fa : ℤ)
    (hlast : table.getLast? = some (Y, TY))
    (hys : (keysOf table).Pairwise (· < ·))
    (hag : ∀ p ∈ table, keysOf p.2 = ages)
    (hfa : ages.head? = some fa) :
    extrapolate table = extrapAux table Y fa := by
  have hlookY : table.lookup Y = some TY := lookup_getLast table Y TY hys hlast
  have hkeys : keysOf TY = ages := hag (Y, TY) (List.mem_of_mem_getLast? hlast)
  have h1 : TY.head?.map Prod.fst = some fa := by
    rw [← List.head?_map]
    show (keysOf TY).head? = some fa
    rw [hkeys, hfa]
  cases h2 : TY.head? with
  | none =>
    rw [h2] at h1
    cases h1
  | some p =>
    obtain ⟨p1, p2⟩ := p
    rw [h2] at h1
    simp at h1
    apply extrapolate_reduce table Y TY fa p2 hlast
    rw [hlookY]
    simp only [Option.getD_some]
    rw [h2, h1]

/-- The entry of the extrapolated surface at the last input year: the
age-extended last input table. -/
theorem lookup_extrapolate_last (table : Surface) (ages : List ℤ) (Y : ℤ)
    (TY : AgeTable) (fa : ℤ)
    (hlast : table.getLast? = some (Y, TY))
    (hys : (keysOf table).Pairwise (· < ·))
    (hag : ∀ p ∈ table, keysOf p.2 = ages)
    (hfa : ages.head? = some fa) :
    (extrapolate table).lookup Y = some (if 15 < fa then extendAges fa TY else TY) := by
  have hlookY : table.lookup Y = some TY := lookup_getLast table Y TY hys hlast
  have hmax := getLast_key_max table Y TY hys hlast
  have hYmem : Y ∈ keysOf table := by
    simp only [keysOf, List.mem_map]
    exact ⟨(Y, TY), List.mem_of_mem_getLast? hlast, rfl⟩
  rw [extrapolate_eq_extrapAux table ages Y TY fa hlast hys hag hfa]
  by_cases h15 : 15 < fa
  · rw [if_pos h15]
    have hlookM : (table.map (fun p => (p.1, extendAges fa p.2))).lookup Y =
        some (extendAges fa TY) := by
      rw [lookup_map_value, hlookY]
      rfl
    by_cases hY : Y < maxYear
    · rw [extrapAux_eq_append_low table Y fa TY hlookY hmax h15 hY]
      rw [lookup_append_left]
      · exact hlookM
      · rw [keysOf_map_value]
        exact hYmem
    · rw [extrapAux_eq_map table Y fa h15 hY]
      exact hlookM
  · rw [if_neg h15]
    by_cases hY : Y < maxYear
    · rw [extrapAux_eq_append_nolow table Y fa TY hlookY hmax h15 hY]
      rw [lookup_append_left table _ Y hYmem]
      exact hlookY
    · rw [extrapAux_eq_self table Y fa h15 hY]
      exact hlookY

/-- The entry of the extrapolated surface at any year strictly after the
last input year and at most the extrapolation ceiling: a copy of the
age-extended last input table. -/
theorem lookup_extrapolate_beyond (table : Surface) (ages : List ℤ) (Y : ℤ)
    (TY : AgeTable) (fa : ℤ)
    (hlast : table.getLast? = some (Y, TY))
    (hys : (keysOf table).Pairwise (· < ·))
    (hag : ∀ p ∈ table, keysOf p.2 = ages)
    (hfa : ages.head? = some fa)
    (y : ℤ) (hy1 : Y < y) (hy2 : y ≤ maxYear) :
    (extrapolate table).lookup y = some (if 15 < fa then extendAges fa TY else TY) := by
  have hlookY : table.lookup Y = some TY := lookup_getLast table Y TY hys hlast
  have hmax := getLast_key_max table Y TY hys hlast
  have hY : Y < maxYear := lt_of_lt_of_le hy1 hy2
  have hnotin : y ∉ keysOf table := by
    intro hmem
    have := hmax y hmem
    omega
  rw [extrapolate_eq_extrapAux table ages Y TY fa hlast hys hag hfa]
  by_cases h15 : 15 < fa
  · rw [if_pos h15]
    rw [extrapAux_eq_append_low table Y fa TY hlookY hmax h15 hY]
    rw [lookup_append_right]
    · apply lookup_all_eq
      · exact year_ext_values Y (extendAges fa TY) _
      · rw [mem_keysOf_year_ext]
        omega
    · rw [keysOf_map_value]
      exact hnotin
  · rw [if_neg h15]
    rw [extrapAux_eq_append_nolow table Y fa TY hlookY hmax h15 hY]
    rw [lookup_append_right table _ y hnotin]
    apply lookup_all_eq
    · exact year_ext_values Y TY _
    · rw [mem_keysOf_year_ext]
      omega

end ImprovementTable

namespace ImprovementTable

/-- Claim C10: extrapolation preserves every originally defined entry.
For a well-formed input surface (years in increasing insertion order, one
shared increasing age list), the extrapolated surface agrees with the
input at every input year and input age. -/
theorem c10_extrapolate_preserves_entries (table : Surface) (ages : List ℤ) (Y : ℤ)
    (TY : AgeTable) (fa : ℤ)
    (hlast : table.getLast? = some (Y, TY))
    (hys : (keysOf table).Pairwise (· < ·))
    (hag : ∀ p ∈ table, keysOf p.2 = ages)
    (has : ages.Pairwise (· < ·))
    (hfa : ages.head? = some fa) :
    ∀ y a : ℤ, y ∈ keysOf table → a ∈ ages →
      (((extrapolate table).lookup y).getD []).lookup a =
        ((table.lookup y).getD []).lookup a := by
  intro y a hy ha
  have hlookY : table.lookup Y = some TY := lookup_getLast table Y TY hys hlast
  have hmax := getLast_key_max table Y TY hys hlast
  have hE := extrapolate_eq_extrapAux table ages Y TY fa hlast hys hag hfa
  obtain ⟨tbl, htbl⟩ := lookup_isSome_of_mem_keys table y hy
  have htblmem : (y, tbl) ∈ table := mem_of_lookup_eq_some table y tbl htbl
  have hkeys : keysOf tbl = ages := hag (y, tbl) htblmem
  by_cases h15 : 15 < fa
  · have ht1 : (table.map (fun p => (p.1, extendAges fa p.2))).lookup y =
        some (extendAges fa tbl) := by
      rw [lookup_map_value, htbl]
      rfl
    have hExt : extendAges fa tbl = lowAges fa tbl ++ tbl := by
      apply extendAges_eq_append
      · rw [hkeys]
        exact nodup_of_sorted ages has
      · intro b hb
        rw [hkeys] at hb
        exact head_le_of_sorted ages fa has hfa b hb
    have hlook : (extrapolate table).lookup y = some (extendAges fa tbl) := by
      rw [hE]
      by_cases hY : Y < maxYear
      · rw [extrapAux_eq_append_low table Y fa TY hlookY hmax h15 hY]
        rw [lookup_append_left]
        · exact ht1
        · rw [keysOf_map_value]
          exact hy
      · rw [extrapAux_eq_map table Y fa h15 hY]
        exact ht1
    rw [hlook, htbl]
    simp only [Option.getD_some]
    rw [hExt, lookup_append_right]
    rw [mem_keysOf_lowAges]
    have hfa_le : fa ≤ a := head_le_of_sorted ages fa has hfa a ha
    omega
  · have hlook : (extrapolate table).lookup y = table.lookup y := by
      rw [hE]
      by_cases hY : Y < maxYear
      · rw [extrapAux_eq_append_nolow table Y fa TY hlookY hmax h15 hY]
        rw [lookup_append_left table _ y hy]
      · rw [extrapAux_eq_self table Y fa h15 hY]
    rw [hlook]

set_option maxRecDepth 16000 in
/-- Witness for claim C10 at a concrete surface. -/
theorem c10_witness :
    (((extrapolate surfaceC10).lookup 2177).getD []).lookup 18 =
      ((surfaceC10.lookup 2177).getD []).lookup 18 :=
  c10_extrapolate_preserves_entries surfaceC10 [18, 20] 2177 [(18, 3 / 10), (20, 1 / 2)] 18
    (by with_unfolding_all decide) (by with_unfolding_all decide)
    (by with_unfolding_all decide) (by with_unfolding_all decide)
    (by with_unfolding_all decide) 2177 18
    (by with_unfolding_all decide) (by with_unfolding_all decide)

/-- Claim C5, amended: for a well-formed input surface, ages from 15 up to
the first defined age carry the rate at the first defined age for every
input year (as claimed); but each year added by the year extension carries
the age-extended last-year table, i.e. the extrapolated surface's own entry
at the last year — it equals the input's last-year table only when the
first defined age is at most 15. -/
theorem c5_extrapolation_flatness_amended (table : Surface) (ages : List ℤ) (Y : ℤ)
    (TY : AgeTable) (fa : ℤ)
    (hlast : table.getLast? = some (Y, TY))
    (hys : (keysOf table).Pairwise (· < ·))
    (hag : ∀ p ∈ table, keysOf p.2 = ages)
    (has : ages.Pairwise (· < ·))
    (hfa : ages.head? = some fa) :
    (∀ y ∈ keysOf table, ∀ a : ℤ, 15 ≤ a → a < fa →
      (((extrapolate table).lookup y).getD []).lookup a =
        ((table.lookup y).getD []).lookup fa) ∧
    (∀ y : ℤ, Y < y → y ≤ maxYear →
      (extrapolate table).lookup y = (extrapolate table).lookup Y) := by
  have hlookY : table.lookup Y = some TY := lookup_getLast table Y TY hys hlast
  have hmax := getLast_key_max table Y TY hys hlast
  have hE := extrapolate_eq_extrapAux table ages Y TY fa hlast hys hag hfa
  constructor
  · intro y hy a ha15 hafa
    have h15 : 15 < fa := by omega
    obtain ⟨tbl, htbl⟩ := lookup_isSome_of_mem_keys table y hy
    have htblmem : (y, tbl) ∈ table := mem_of_lookup_eq_some table y tbl htbl
    have hkeys : keysOf tbl = ages := hag (y, tbl) htblmem
    have ht1 : (table.map (fun p => (p.1, extendAges fa p.2))).lookup y =
        some (extendAges fa tbl) := by
      rw [lookup_map_value, htbl]
      rfl
    have hExt : extendAges fa tbl = lowAges fa tbl ++ tbl := by
      apply extendAges_eq_append
      · rw [hkeys]
        exact nodup_of_sorted ages has
      · intro b hb
        rw [hkeys] at hb
        exact head_le_of_sorted ages fa has hfa b hb
    have hlook : (extrapolate table).lookup y = some (extendAges fa tbl) := by
      rw [hE]
      by_cases hY : Y < maxYear
      · rw [extrapAux_eq_append_low table Y fa TY hlookY hmax h15 hY]
        rw [lookup_append_left]
        · exact ht1
        · rw [keysOf_map_value]
          exact hy
      · rw [extrapAux_eq_map table Y fa h15 hY]
        exact ht1
    rw [hlook, htbl]
    simp only [Option.getD_some]
    rw [hExt, lookup_append_left]
    · have hfa_mem : fa ∈ keysOf tbl := by
        rw [hkeys]
        exact List.mem_of_mem_head? hfa
      obtain ⟨rv, hrv⟩ := lookup_isSome_of_mem_keys tbl fa hfa_mem
      rw [lookup_all_eq (lowAges fa tbl) ((tbl.lookup fa).getD 0) a (lowAges_values fa tbl),
        hrv]
      · simp
      · rw [mem_keysOf_lowAges]
        omega
    · rw [mem_keysOf_lowAges]
      omega
  · intro y hy1 hy2
    rw [lookup_extrapolate_beyond table ages Y TY fa hlast hys hag hfa y hy1 hy2,
      lookup_extrapolate_last table ages Y TY fa hlast hys hag hfa]

/-- Counterexample to the year-extension equality of claim C5 as stated:
for a surface with last year 2177 and first defined age 20, the
extrapolated surface at 2178 is the age-extended table, which differs from
the input's last-year table. -/
theorem c5_counterexample :
    ¬ ((extrapolate cexSurface).lookup 2178 = cexSurface.lookup 2177) := by
  with_unfolding_all decide

set_option maxRecDepth 16000 in
/-- Witness for the amended claim C5 at a concrete surface. -/
theorem c5_witness :
    (((extrapolate surfaceC5).lookup 2176).getD []).lookup 15 =
      ((surfaceC5.lookup 2176).getD []).lookup 19 ∧
    (extrapolate surfaceC5).lookup 2177 = (extrapolate surfaceC5).lookup 2176 :=
  ⟨(c5_extrapolation_flatness_amended surfaceC5 [19] 2176 [(19, 1 / 4)] 19
      (by with_unfolding_all decide) (by with_unfolding_all decide)
      (by with_unfolding_all decide) (by with_unfolding_all decide)
      (by with_unfolding_all decide)).1 2176 (by with_unfolding_all decide) 15
      (by norm_num) (by norm_num),
   (c5_extrapolation_flatness_amended surfaceC5 [19] 2176 [(19, 1 / 4)] 19
      (by with_unfolding_all decide) (by with_unfolding_all decide)
      (by with_unfolding_all decide) (by with_unfolding_all decide)
      (by with_unfolding_all decide)).2 2177 (by norm_num) (by norm_num [maxYear])⟩

end ImprovementTable

namespace ImprovementTable

theorem getLast_table_head (table : Surface) (ages : List ℤ) (Y : ℤ) (TY : AgeTable) (fa : ℤ)
    (hlast : table.getLast? = some (Y, TY))
    (hag : ∀ p ∈ table, keysOf p.2 = ages)
    (hfa : ages.head? = some fa) :
    ∃ r, TY.head? = some (fa, r) := by
  have hkeys : keysOf TY = ages := hag (Y, TY) (List.mem_of_mem_getLast? hlast)
  have h1 : TY.head?.map Prod.fst = some fa := by
    rw [← List.head?_map]
    show (keysOf TY).head? = some fa
    rw [hkeys, hfa]
  cases h2 : TY.head? with
  | none =>
    rw [h2] at h1
    cases h1
  | some p =>
    obtain ⟨p1, p2⟩ := p
    rw [h2] at h1
    simp at h1
    exact ⟨p2, by rw [h1]⟩

/-- Claim C6: extrapolation of a well-formed surface is idempotent. -/
theorem c6_extrapolate_idempotent (table : Surface) (ages : List ℤ) (Y : ℤ)
    (TY : AgeTable) (fa : ℤ)
    (hlast : table.getLast? = some (Y, TY))
    (hys : (keysOf table).Pairwise (· < ·))
    (hag : ∀ p ∈ table, keysOf p.2 = ages)
    (has : ages.Pairwise (· < ·))
    (hfa : ages.head? = some fa) :
    extrapolate (extrapolate table) = extrapolate table := by
  have hlookY := lookup_getLast table Y TY hys hlast
  have hmax := getLast_key_max table Y TY hys hlast
  have hE := extrapolate_eq_extrapAux table ages Y TY fa hlast hys hag hfa
  have hkeysTY : keysOf TY = ages := hag (Y, TY) (List.mem_of_mem_getLast? hlast)
  obtain ⟨r, hr⟩ := getLast_table_head table ages Y TY fa hlast hag hfa
  have hndTY : (keysOf TY).Nodup := by
    rw [hkeysTY]
    exact nodup_of_sorted ages has
  have hgeTY : ∀ b ∈ keysOf TY, fa ≤ b := by
    intro b hb
    rw [hkeysTY] at hb
    exact head_le_of_sorted ages fa has hfa b hb
  by_cases h15 : 15 < fa
  · have hExtTY : extendAges fa TY = lowAges fa TY ++ TY :=
      extendAges_eq_append fa TY hndTY hgeTY
    have hheadL : (extendAges fa TY).head? = some (15, (TY.lookup fa).getD 0) := by
      rw [hExtTY]
      exact head_append_of_head _ _ _ (lowAges_head fa TY h15)
    by_cases hY : Y < maxYear
    · have hEeq : extrapolate table =
          table.map (fun p => (p.1, extendAges fa p.2)) ++
            (List.range (maxYear - Y).toNat).map
              (fun i : ℕ => (Y + 1 + (i : ℤ), extendAges fa TY)) := by
        rw [hE, extrapAux_eq_append_low table Y fa TY hlookY hmax h15 hY]
      have hn0 : (maxYear - Y).toNat ≠ 0 := by omega
      have hnews : ((List.range (maxYear - Y).toNat).map
          (fun i : ℕ => (Y + 1 + (i : ℤ), extendAges fa TY))) ≠ [] := by
        intro hnil
        have := congrArg List.length hnil
        simp at this
        omega
      have hgl : (extrapolate table).getLast? = some (maxYear, extendAges fa TY) := by
        rw [hEeq, getLast_append_of_ne_nil _ _ hnews,
          year_ext_getLast Y (extendAges fa TY) _ hn0]
        have hkey : Y + 1 + (((maxYear - Y).toNat - 1 : ℕ) : ℤ) = maxYear := by omega
        rw [hkey]
      have hlookE : (extrapolate table).lookup maxYear = some (extendAges fa TY) := by
        have h := lookup_extrapolate_beyond table ages Y TY fa hlast hys hag hfa
          maxYear hY (le_refl _)
        rwa [if_pos h15] at h
      rw [extrapolate_reduce (extrapolate table) maxYear (extendAges fa TY) 15
        ((TY.lookup fa).getD 0) hgl
        (by rw [hlookE]; simp only [Option.getD_some]; exact hheadL)]
      exact extrapAux_eq_self _ maxYear 15 (by norm_num) (lt_irrefl maxYear)
    · have hEeq : extrapolate table = table.map (fun p => (p.1, extendAges fa p.2)) := by
        rw [hE, extrapAux_eq_map table Y fa h15 hY]
      have hgl : (extrapolate table).getLast? = some (Y, extendAges fa TY) := by
        rw [hEeq, List.getLast?_map, hlast]
        rfl
      have hlookE : (extrapolate table).lookup Y = some (extendAges fa TY) := by
        rw [hEeq, lookup_map_value, hlookY]
        rfl
      rw [extrapolate_reduce (extrapolate table) Y (extendAges fa TY) 15
        ((TY.lookup fa).getD 0) hgl
        (by rw [hlookE]; simp only [Option.getD_some]; exact hheadL)]
      exact extrapAux_eq_self _ Y 15 (by norm_num) hY
  · by_cases hY : Y < maxYear
    · have hEeq : extrapolate table =
          table ++ (List.range (maxYear - Y).toNat).map
            (fun i : ℕ => (Y + 1 + (i : ℤ), TY)) := by
        rw [hE, extrapAux_eq_append_nolow table Y fa TY hlookY hmax h15 hY]
      have hn0 : (maxYear - Y).toNat ≠ 0 := by omega
      have hnews : ((List.range (maxYear - Y).toNat).map
          (fun i : ℕ => (Y + 1 + (i : ℤ), TY))) ≠ [] := by
        intro hnil
        have := congrArg List.length hnil
        simp at this
        omega
      have hgl : (extrapolate table).getLast? = some (maxYear, TY) := by
        rw [hEeq, getLast_append_of_ne_nil _ _ hnews, year_ext_getLast Y TY _ hn0]
        have hkey : Y + 1 + (((maxYear - Y).toNat - 1 : ℕ) : ℤ) = maxYear := by omega
        rw [hkey]
      have hlookE : (extrapolate table).lookup maxYear = some TY := by
        have h := lookup_extrapolate_beyond table ages Y TY fa hlast hys hag hfa
          maxYear hY (le_refl _)
        rwa [if_neg h15] at h
      rw [extrapolate_reduce (extrapolate table) maxYear TY fa r hgl
        (by rw [hlookE]; simp only [Option.getD_some]; exact hr)]
      exact extrapAux_eq_self _ maxYear fa h15 (lt_irrefl maxYear)
    · have hEeq : extrapolate table = table := by
        rw [hE, extrapAux_eq_self table Y fa h15 hY]
      rw [hEeq]
      exact hEeq

end ImprovementTable

set_option maxRecDepth 16000 in
/-- Witness for claim C6 at a concrete surface. -/
theorem c6_witness :
    ImprovementTable.extrapolate (ImprovementTable.extrapolate ImprovementTable.surfaceC6) =
      ImprovementTable.extrapolate ImprovementTable.surfaceC6 :=
  ImprovementTable.c6_extrapolate_idempotent ImprovementTable.surfaceC6 [20] 2177
    [(20, 1 / 2)] 20
    (by with_unfolding_all decide) (by with_unfolding_all decide)
    (by with_unfolding_all decide) (by with_unfolding_all decide)
    (by with_unfolding_all decide)
